import Mathlib

/-!
Verification development for the linearToExcel repository.

The repository renders Linear issues into an Excel capacity-planning grid
(src/src/excel_generator.py) behind a CLI (src/linear_to_excel.py).  This file
gives a shallow embedding of the grid-layout engine and proves or refutes the
frozen claims about it.

Modelling conventions:
  * Python strings are Lean `String`s; Python `str` truthiness is `≠ ""`.
  * Python `None`-able values are `Option`s.
  * Date/time strings are modelled by `DateStr`: either the empty string, a
    nonempty string that `datetime.fromisoformat` rejects, or a nonempty
    string carrying the timestamp (in seconds) it parses to.  ISO-8601 raw
    strings are kept alongside because the source also compares them as raw
    strings (`issue_cycle_start <= cycle_start`).
  * Estimates and numeric cell values are `Rat` (Python floats on the values
    the tool handles are exact decimal fractions; no float rounding is
    modelled).
  * Code that can raise is embedded with `Option` (`none` = exception).
-/

namespace LinearToExcel

/-! ### Python string primitives used by excel_generator

All scanning is done with structural recursion over `List Char` so that every
definition evaluates inside the kernel (`decide` / `rfl`). -/

/-- Split a character list at every character satisfying `p`, keeping empty
pieces, exactly like Python `str.split(sep)` for a one-character `sep`. -/
def splitCharsBy (p : Char → Bool) (l : List Char) : List (List Char) :=
  l.foldr
    (fun c acc =>
      if p c then [] :: acc
      else
        match acc with
        | [] => [[c]]
        | g :: gs => (c :: g) :: gs)
    [[]]

/-- Model of Python `str.split(sep)` for a one-character separator. -/
def pySplitOn (s : String) (sep : Char) : List String :=
  (splitCharsBy (fun c => c = sep) s.data).map String.mk

/-- Model of Python `str.split()` with no argument: split on whitespace runs
and drop the empty pieces. -/
def pySplitWS (s : String) : List String :=
  ((splitCharsBy Char.isWhitespace s.data).map String.mk).filter (fun t => t ≠ "")

/-- Model of Python `c in s` for a single character. -/
def pyContainsChar (s : String) (c : Char) : Bool :=
  s.data.any (fun x => x = c)

/-- Model of Python `str.capitalize()` (ASCII): first character uppercased,
the remaining characters lowercased. -/
def pyCapitalize (s : String) : String :=
  match s.data with
  | [] => ""
  | c :: cs => String.mk (c.toUpper :: cs.map Char.toLower)

/-- Model of Python `str.lower()` (ASCII). -/
def pyLower (s : String) : String :=
  String.mk (s.data.map Char.toLower)

/-- Model of Python `str.strip()`. -/
def pyStrip (s : String) : String :=
  String.mk (((s.data.dropWhile Char.isWhitespace).reverse.dropWhile Char.isWhitespace).reverse)

/-- Character-list test: does the second list start with the first? -/
def startsWithChars : List Char → List Char → Bool
  | [], _ => true
  | _ :: _, [] => false
  | a :: as, b :: bs => (a = b) && startsWithChars as bs

/-- Character-list substring test. -/
def containsSubChars (pat : List Char) : List Char → Bool
  | [] => pat.isEmpty
  | c :: cs => startsWithChars pat (c :: cs) || containsSubChars pat cs

/-- Model of Python `pat in s` for strings. -/
def pyContainsSub (s pat : String) : Bool :=
  containsSubChars pat.data s.data

/-! ### format_name (excel_generator.py lines 27-49) -/

/-- The email-normalisation step of `format_name`: if the name contains `@`,
take the part before the first `@`, split it on dots, capitalize each word and
join with spaces; otherwise return the name unchanged. -/
def emailNorm (name : String) : String :=
  if pyContainsChar name '@' then
    String.intercalate " " (((pySplitOn name '@').headD "" |>.data |> splitCharsBy (fun c => c = '.')).map (fun w => pyCapitalize (String.mk w)))
  else name

/-- Shallow embedding of `excel_generator.format_name`.  Returns `none` where
the Python code raises: with `first_only` and a processed name that is nonempty
but has no whitespace-separated token, `name.split()[0]` raises `IndexError`. -/
def format_name (name : String) (first_only : Bool := true) : Option String :=
  if name = "" then some name
  else
    let n := emailNorm name
    if first_only then
      if n = "" then some n
      else
        match pySplitWS n with
        | [] => none
        | t :: _ => some t
    else some n

/-- Reference definition written from the claim text for C8: part before `@`
split on dots, tokens capitalized and joined with spaces, otherwise verbatim;
with `first_only` only the first whitespace-separated token of the result;
empty input unchanged. -/
def formatNameSpec (name : String) (first_only : Bool) : String :=
  if name = "" then name
  else
    let r := emailNorm name
    if first_only then (pySplitWS r).headD r else r

/-! ### Date strings and get_week_index (excel_generator.py lines 62-81) -/

/-- Model of a Python date-string field: empty, nonempty but unparseable, or a
nonempty ISO string together with the timestamp (seconds) it parses to. -/
inductive DateStr where
  | empty : DateStr
  | invalid (s : String) : DateStr
  | iso (s : String) (ts : Int) : DateStr
deriving DecidableEq

/-- The raw string of a `DateStr`, as the Python code sees it. -/
def DateStr.raw : DateStr → String
  | .empty => ""
  | .invalid s => s
  | .iso s _ => s

/-- The timestamp a `DateStr` parses to, when `datetime.fromisoformat`
succeeds. -/
def DateStr.parse : DateStr → Option Int
  | .iso _ t => some t
  | _ => none

/-- Shallow embedding of `excel_generator.get_week_index`.  Timestamps are in
seconds; Python `(cycle_date - start_date).days` is `⌊(t - s) / 86400⌋` and
`//` is floor division, both `Int.fdiv` here.  `num_weeks` is unused by the
source function and kept for fidelity. -/
def get_week_index (cycle_start : DateStr) (start_ts : Int) (num_weeks : Int) : Int :=
  if cycle_start.raw = "" then -1
  else
    match cycle_start with
    | .iso _ t =>
      let days_diff := Int.fdiv (t - start_ts) 86400
      let week_index := Int.fdiv days_diff 7
      if days_diff < 0 then -2 else week_index
    | _ => -1

/-- The clamping its callers (`populate_sheet` lines 251-254 and 264-267,
`populate_sheet_refresh` lines 557-560 and 572-575) apply to the result of
`get_week_index`: negative values become week 0, values past the window become
the last week. -/
def clampWeekIdx (week_idx num_weeks : Int) : Int :=
  if week_idx < 0 then 0
  else if week_idx ≥ num_weeks then num_weeks - 1
  else week_idx

/-! ### Cell values and numeric rendering -/

/-- Value of one worksheet cell, as written by the generator or read back by
openpyxl: blank, a number, a text, or a datetime (modelled at day granularity
as a civil day count, since the generator writes midnight dates). -/
inductive CellVal where
  | empty : CellVal
  | num (q : Rat) : CellVal
  | str (s : String) : CellVal
  | date (day : Int) : CellVal
deriving DecidableEq

/-- Python truthiness of a cell value (`if cell_val:`): `None` and `""` and
`0` are falsy. -/
def CellVal.truthy : CellVal → Bool
  | .empty => false
  | .num q => q ≠ 0
  | .str s => s ≠ ""
  | .date _ => true

/-- Decimal digits of a natural number, by structural recursion on a fuel
argument (so the kernel can evaluate it); `fuel ≥ n` suffices. -/
def natDigitsAux : Nat → Nat → List Char
  | 0, _ => []
  | _ + 1, 0 => []
  | fuel + 1, n => natDigitsAux fuel (n / 10) ++ [Char.ofNat (48 + n % 10)]

/-- Decimal rendering of a natural number. -/
def natRepr (n : Nat) : String :=
  if n = 0 then "0" else String.mk (natDigitsAux n n)

/-- Model of Python `str(i)` for an int. -/
def intRepr (i : Int) : String :=
  if i < 0 then "-" ++ natRepr i.natAbs else natRepr i.natAbs

/-- Model of Python `int()` applied to a float value: truncation toward
zero. -/
def pyTrunc (q : Rat) : Int :=
  Int.tdiv q.num (q.den : Int)

/-! ### The issue records consumed by populate_sheet -/

/-- Shallow embedding of one Linear issue dictionary as the generator reads
it.  `assigneeName` is `issue["assignee"]["name"]` with `""` modelling both a
missing assignee object and a missing/empty name (the code treats them
alike via truthiness); `projectName = none` models a missing project or a
project without a name key; `initiativeNames` are the names of
`project["initiatives"]["nodes"]`. -/
structure Issue where
  title : String := ""
  url : String := ""
  estimate : Option Rat := none
  assigneeName : String := ""
  stateType : String := ""
  cycleStartsAt : DateStr := .empty
  updatedAt : DateStr := .empty
  description : String := ""
  projectName : Option String := none
  initiativeNames : List String := []
deriving DecidableEq

/-- excel_generator.py line 17. -/
def INACTIVE_STATUS_TYPES : List String := ["backlog", "triage", "canceled", "cancelled"]

/-- excel_generator.py line 19 (unused by the placement code, kept for
reference). -/
def ACTIVE_STATUS_TYPES : List String := ["started", "completed", "unstarted"]

/-- Whether `format_name` terminates without raising on this issue's assignee
name (`populate_sheet` calls it on every issue and in
`extract_unique_assignees`). -/
def nameOk (i : Issue) : Bool := (format_name i.assigneeName true).isSome

/-- The formatted first-name display the generator computes for an issue's
assignee (meaningful when `nameOk`). -/
def displayName (i : Issue) : String := (format_name i.assigneeName true).getD ""

/-- The string written into the "Assigned to" column for an issue's data row
(lines 229-233): the formatted name, or "No assignee" when it is empty. -/
def assigneeCellOf (i : Issue) : String :=
  if displayName i = "" then "No assignee" else displayName i

/-- Grouping: `project.get("name", "No Project")` (line 183). -/
def projectNameOf (i : Issue) : String := i.projectName.getD "No Project"

/-- Grouping: first initiative's name, else "No Initiative" (line 185). -/
def initiativeNameOf (i : Issue) : String := i.initiativeNames.headD "No Initiative"

/-- The `(initiative_name, project_name)` grouping key (line 187). -/
def groupKey (i : Issue) : String × String := (initiativeNameOf i, projectNameOf i)

/-- Python tuple-of-strings `sorted` order on grouping keys. -/
def keyLE (a b : String × String) : Prop :=
  a.1 < b.1 ∨ (a.1 = b.1 ∧ a.2 ≤ b.2)

instance : DecidableRel keyLE := fun a b => by
  unfold keyLE; infer_instance

/-- The sorted list of distinct grouping keys `sorted(grouped_issues.keys())`
(line 195). -/
def sortedKeys (issues : List Issue) : List (String × String) :=
  ((issues.map groupKey).dedup).insertionSort keyLE

/-! ### Weekly placement in populate_sheet (lines 235-274) -/

/-- The weekly-capacity cell `populate_sheet` writes for one issue: the week
index (0-based column offset) and the cell value, or `none` when the issue
gets no weekly placement.  Cycle placements are numbers; active no-cycle
placements are the text `"<int(estimate)> (No cycle!)"`; the optional
`cycle_start` boundary only gates cycle placements, by raw string
comparison (line 246). -/
def placeIssue (cycle_start : Option String) (start_ts num_weeks : Int) (issue : Issue) :
    Option (Int × CellVal) :=
  match issue.estimate with
  | none => none
  | some est =>
    if issue.cycleStartsAt.raw ≠ "" then
      let should_show :=
        match cycle_start with
        | none => true
        | some cb => decide (issue.cycleStartsAt.raw ≤ cb)
      if should_show then
        some (clampWeekIdx (get_week_index issue.cycleStartsAt start_ts num_weeks) num_weeks,
          CellVal.num est)
      else none
    else if pyLower issue.stateType ∈ INACTIVE_STATUS_TYPES then none
    else
      let week_idx :=
        if issue.updatedAt.raw ≠ "" then
          clampWeekIdx (get_week_index issue.updatedAt start_ts num_weeks) num_weeks
        else num_weeks - 1
      some (week_idx, CellVal.str (intRepr (pyTrunc est) ++ " (No cycle!)"))

/-- The engine's week index for an issue, as the C1 claim's
`item.weekIndex`. -/
def specWeekIndex (cycle_start : Option String) (start_ts num_weeks : Int) (i : Issue) :
    Option Int :=
  (placeIssue cycle_start start_ts num_weeks i).map Prod.fst

/-! ### The data block of populate_sheet (lines 190-276) -/

/-- One data-block row: the "Assigned to" cell and the week-column cells
that were written (indexed by 0-based week offset). -/
structure DataRow where
  assigneeCell : CellVal
  weekCells : List (Int × CellVal)
deriving DecidableEq

/-- A gray separator row: no item data (lines 197-200). -/
def sepRow : DataRow := ⟨CellVal.empty, []⟩

/-- The data row written for one issue (lines 204-274), restricted to the
columns the capacity aggregation reads. -/
def issueRow (cycle_start : Option String) (start_ts num_weeks : Int) (i : Issue) : DataRow :=
  ⟨CellVal.str (assigneeCellOf i),
   match placeIssue cycle_start start_ts num_weeks i with
   | none => []
   | some (w, v) => [(w, v)]⟩

/-- The data-block rows for a list of grouping keys, with a separator row
inserted whenever the initiative changes (never before the first group), as
in lines 191-276.  `last_initiative` threads the loop state. -/
def buildRowsAux (cycle_start : Option String) (start_ts num_weeks : Int)
    (issues : List Issue) : Option String → List (String × String) → List DataRow
  | _, [] => []
  | last_initiative, k :: ks =>
    (match last_initiative with
     | none => []
     | some li => if k.1 ≠ li then [sepRow] else []) ++
    ((issues.filter (fun i => decide (groupKey i = k))).map (issueRow cycle_start start_ts num_weeks)) ++
    buildRowsAux cycle_start start_ts num_weeks issues (some k.1) ks

/-- The full data block `populate_sheet` writes below the header row.  The
rewritten SUMIF range `$G$data_start:$G$actual_last` (lines 278-286) spans
exactly these rows, since `current_row` starts at `data_start_row`,
increments once per written row, and `actual_last_row = current_row - 1`. -/
def buildDataRows (cycle_start : Option String) (start_ts num_weeks : Int)
    (issues : List Issue) : List DataRow :=
  buildRowsAux cycle_start start_ts num_weeks issues none (sortedKeys issues)

/-! ### SUMIF evaluation (lines 141-149 and 278-286) -/

/-- The numeric value SUM-style formulas read from a cell: numbers count,
text and blanks count as zero. -/
def cellNum : CellVal → Rat
  | .num q => q
  | _ => 0

/-- The value sitting in a row's week column `w`. -/
def weekVal (cells : List (Int × CellVal)) (w : Int) : CellVal :=
  match cells.find? (fun p => decide (p.1 = w)) with
  | some p => p.2
  | none => CellVal.empty

/-- One data row's contribution to the SUMIF for assignee `a`, week `w`:
its week-`w` value when its criteria-column cell equals `a`, else 0. -/
def rowContrib (a : String) (w : Int) (r : DataRow) : Rat :=
  if r.assigneeCell = CellVal.str a then cellNum (weekVal r.weekCells w) else 0

/-- Evaluation of the rewritten capacity formula
`=SUMIF($G$ds:$G$al, $G<row>, <wk>$ds:<wk>$al)` over the final data-row
range: sum, over data rows whose assignee cell equals the criterion, of the
numeric week-column values.  Text matching is modelled as exact string
equality (Excel compares case-insensitively, but every criterion this
program writes is byte-identical to the matching data cells). -/
def sumifEval (rows : List DataRow) (a : String) (w : Int) : Rat :=
  (rows.map (rowContrib a w)).sum

/-- The C1 claim's reference aggregate:
`sum(estimate for item in items if item.assignee == row.assignee and
item.weekIndex == column.week)`, reading `item.assignee` as the displayed
name and `item.weekIndex` as the week the engine places the item at. -/
def claimDirectSum (cycle_start : Option String) (start_ts num_weeks : Int)
    (issues : List Issue) (a : String) (w : Int) : Rat :=
  ((issues.filter (fun i =>
      decide (displayName i = a) &&
      decide (specWeekIndex cycle_start start_ts num_weeks i = some w))).map
    (fun i => i.estimate.getD 0)).sum

/-- The numeric week-`w` cell value an issue's data row actually carries
(zero for a text "(No cycle!)" placement or no placement). -/
def numericContrib (cycle_start : Option String) (start_ts num_weeks : Int)
    (i : Issue) (w : Int) : Rat :=
  match placeIssue cycle_start start_ts num_weeks i with
  | some (w2, CellVal.num q) => if w2 = w then q else 0
  | _ => 0

/-- The sum the capacity SUMIF actually evaluates to: numeric placements of
the issues whose assignee cell equals the criterion. -/
def amendedDirectSum (cycle_start : Option String) (start_ts num_weeks : Int)
    (issues : List Issue) (a : String) (w : Int) : Rat :=
  ((issues.filter (fun i => decide (assigneeCellOf i = a))).map
    (fun i => numericContrib cycle_start start_ts num_weeks i w)).sum

/-! ### populate_sheet_refresh (lines 355-631) -/

/-- Lookup in the reconciled `(issue_url, week_index) -> value` capacity map.
The map is an association list where earlier entries shadow later ones
(insertions prepend), matching dict overwrite semantics. -/
def lookupCap (ec : List ((String × Int) × Rat)) (url : String) (w : Int) : Option Rat :=
  (ec.find? (fun p => decide (p.1 = (url, w)))).map Prod.snd

/-- Line 504: `linear_has_assignee = bool(linear_assignee.get("name"))`. -/
def linearHasAssignee (i : Issue) : Bool := i.assigneeName ≠ ""

/-- The assignee name `populate_sheet_refresh` uses for a row (lines
533-538): the fresh Linear name when present, otherwise the reconciled name
for the issue's URL. -/
def refreshAssigneeName (ea : List (String × String)) (i : Issue) : String :=
  if linearHasAssignee i then displayName i
  else ((ea.find? (fun p => decide (p.1 = i.url))).map Prod.snd).getD ""

/-- The "Assigned to" cell of a refresh data row (lines 541-545). -/
def refreshAssigneeCell (ea : List (String × String)) (i : Issue) : String :=
  if refreshAssigneeName ea i = "" then "No assignee" else refreshAssigneeName ea i

/-- The fresh (Linear-derived) weekly placement of `populate_sheet_refresh`
(lines 554-581): a numeric cycle placement, or an active-status no-cycle text
placement; `none` exactly when `has_linear_placement` stays false.  Unlike
`populate_sheet` there is no cycle-boundary filter here. -/
def linearPlacement (start_ts num_weeks : Int) (i : Issue) : Option (Int × CellVal) :=
  match i.estimate with
  | none => none
  | some est =>
    if i.cycleStartsAt.raw ≠ "" then
      some (clampWeekIdx (get_week_index i.cycleStartsAt start_ts num_weeks) num_weeks,
        CellVal.num est)
    else if pyLower i.stateType ∈ INACTIVE_STATUS_TYPES then none
    else
      some ((if i.updatedAt.raw ≠ "" then
               clampWeekIdx (get_week_index i.updatedAt start_ts num_weeks) num_weeks
             else num_weeks - 1),
        CellVal.str (intRepr (pyTrunc est) ++ " (No cycle!)"))

/-- The week indices `range(num_weeks)` as integers. -/
def intRange (n : Int) : List Int :=
  (List.range n.toNat).map (Nat.cast : Nat → Int)

/-- The restoration loop of lines 585-593: for every week index, restore the
reconciled value when it is strictly positive. -/
def restoredCells (num_weeks : Int) (ec : List ((String × Int) × Rat)) (url : String) :
    List (Int × CellVal) :=
  (intRange num_weeks).filterMap (fun w =>
    match lookupCap ec url w with
    | some v => if 0 < v then some (w, CellVal.num v) else none
    | none => none)

/-- The week cells of one `populate_sheet_refresh` data row (lines 547-593):
the fresh Linear placement when there is one, otherwise the restored
existing-file placements. -/
def placeIssueRefresh (start_ts num_weeks : Int) (ec : List ((String × Int) × Rat))
    (i : Issue) : List (Int × CellVal) :=
  match linearPlacement start_ts num_weeks i with
  | some p => [p]
  | none => restoredCells num_weeks ec i.url

/-! ### Historical-assignee resolver (spec section 4.5)

The CLI's by-weeks mode (`create_excel_by_weeks`, imported at
linear_to_excel.py line 10 and called at line 284 with the fetched issue
histories) is the caller of this resolver, but the function itself is missing
from src/src/excel_generator.py, so it is modelled from the spec. -/

/-- Modelled from the spec: one change-log entry as the resolver reads it
(spec sections 3 and 4.5) — a timestamp (`none` models an unparseable
timestamp, which is skipped) and the assignee-from/assignee-to deltas. -/
structure HistoryEntry where
  createdAt : Option Int
  toAssignee : Option String := none
  fromAssignee : Option String := none
deriving DecidableEq

/-- Modelled from the spec: one step of the left fold of section 4.5 — an
assignee-to value becomes current; an assignee-from value with no assignee-to
resets to unassigned; otherwise the current value is kept. -/
def assigneeStep (cur : String) (e : HistoryEntry) : String :=
  match e.toAssignee with
  | some a => a
  | none =>
    match e.fromAssignee with
    | some _ => "unassigned"
    | none => cur

/-- Ascending-timestamp order on dated log entries. -/
def tsLE (a b : Int × HistoryEntry) : Prop := a.1 ≤ b.1

instance : DecidableRel tsLE := fun a b => by
  unfold tsLE; infer_instance

instance : IsTotal (Int × HistoryEntry) tsLE :=
  ⟨fun a b => le_total a.1 b.1⟩

instance : IsTrans (Int × HistoryEntry) tsLE :=
  ⟨fun _ _ _ h1 h2 => le_trans h1 h2⟩

/-- Modelled from the spec: the log sorted ascending by timestamp, entries
with unparseable timestamps skipped (section 4.5). -/
def sortedLog (log : List HistoryEntry) : List (Int × HistoryEntry) :=
  (log.filterMap (fun e => e.createdAt.map (fun t => (t, e)))).insertionSort tsLE

/-- Modelled from the spec: `assigneeAsOf(item, changeLog, targetDate)`
(section 4.5, missing from src/) — fold the sorted log from "unassigned" over
the entries with timestamp ≤ target, stopping at the first later entry; an
empty log falls back to the item's present-day assignee. -/
def assigneeAsOf (item : Issue) (log : List HistoryEntry) (target : Int) : String :=
  if log.isEmpty then
    (if item.assigneeName = "" then "unassigned" else item.assigneeName)
  else
    ((sortedLog log).takeWhile (fun e => decide (e.1 ≤ target))).foldl
      (fun cur e => assigneeStep cur e.2) "unassigned"

/-! ### Module import surface (linear_to_excel.py line 10) -/

/-- The module-level function names src/src/excel_generator.py defines. -/
def excelGeneratorDefs : List String :=
  ["generate_week_dates", "format_name", "extract_unique_assignees", "get_week_index",
   "populate_sheet", "create_excel", "refresh_excel", "populate_sheet_refresh",
   "read_existing_capacity_data"]

/-- The names linear_to_excel.py line 10 imports from src.excel_generator. -/
def cliExcelImports : List String :=
  ["create_excel", "append_to_excel", "overwrite_excel", "create_excel_by_cycles",
   "create_excel_by_weeks"]

/-- Python from-import semantics: a `from m import a, b, ...` statement
succeeds iff every imported name is defined in module `m`; otherwise it
raises ImportError, which aborts loading the importing module. -/
def importSucceeds (defs imports : List String) : Bool :=
  imports.all (fun n => defs.contains n)

/-! ### Calendar arithmetic for the reconciler's date parsing -/

/-- Gregorian leap-year test. -/
def isLeapYear (y : Int) : Bool :=
  (y % 4 == 0 && y % 100 != 0) || y % 400 == 0

/-- Days in a month of a given year. -/
def daysInMonth (y : Int) (m : Nat) : Nat :=
  if m = 2 then (if isLeapYear y then 29 else 28)
  else if m ∈ [4, 6, 9, 11] then 30 else 31

/-- Civil day count of a Gregorian date (days since 1970-01-01), following
the standard era/year-of-era computation. -/
def daysFromCivil (y : Int) (m d : Nat) : Int :=
  let y2 : Int := if m ≤ 2 then y - 1 else y
  let era : Int := Int.fdiv y2 400
  let yoe : Int := y2 - era * 400
  let mp : Int := (m : Int) + (if 2 < m then -3 else 9)
  let doy : Int := Int.fdiv (153 * mp + 2) 5 + (d : Int) - 1
  let doe : Int := yoe * 365 + Int.fdiv yoe 4 - Int.fdiv yoe 100 + doy
  era * 146097 + doe - 719468

/-- Numeric value of a digit character. -/
def digitVal (c : Char) : Option Nat :=
  if c.isDigit then some (c.toNat - 48) else none

/-- A one-or-two-digit number, as `%m` and `%d` accept. -/
def parse12 : List Char → Option Nat
  | [a] => digitVal a
  | [a, b] =>
    match digitVal a, digitVal b with
    | some x, some y => some (10 * x + y)
    | _, _ => none
  | _ => none

/-- Model of `datetime.strptime(cell + "/" + str(year), "%m/%d/%Y")`
(excel_generator.py lines 704 and 707): parse an `M/D` cell against the given
year, returning the civil day count, or `none` for ValueError. -/
def parseMD (s : String) (year : Int) : Option Int :=
  match splitCharsBy (fun c => c = '/') s.data with
  | [ms, ds] =>
    match parse12 ms, parse12 ds with
    | some m, some d =>
      if 1 ≤ m ∧ m ≤ 12 ∧ 1 ≤ d ∧ d ≤ daysInMonth year m then
        some (daysFromCivil year m d)
      else none
    | _, _ => none
  | _ => none

/-- All characters are digits. -/
def allDigits (l : List Char) : Bool := l.all Char.isDigit

/-- Value of a digit run. -/
def digitsToNat (l : List Char) : Nat :=
  l.foldl (fun n c => 10 * n + (c.toNat - 48)) 0

/-- Model of Python `float(s)` on plain decimal strings (the only float
strings this tool round-trips): optional sign, integer part, optional
fractional part; `none` for ValueError. -/
def parsePyFloat (s : String) : Option Rat :=
  let go : List Char → Option Rat := fun l =>
    match splitCharsBy (fun c => c = '.') l with
    | [ip] =>
      if ip.isEmpty || !allDigits ip then none
      else some ((digitsToNat ip : Int) : Rat)
    | [ip, fp] =>
      if (ip.isEmpty && fp.isEmpty) || !allDigits ip || !allDigits fp then none
      else some (((digitsToNat ip : Int) : Rat) + (digitsToNat fp : Rat) / ((10 : Rat) ^ fp.length))
    | _ => none
  match s.data with
  | '-' :: rest => (go rest).map (fun r => -r)
  | '+' :: rest => go rest
  | l => go l

/-! ### Worksheet model and read_existing_capacity_data (lines 634-744) -/

/-- The start date `read_existing_capacity_data` receives: its `.year` is
used by the two-pass `strptime` heuristic, its `.day` (civil day count) by
the date comparisons and week-index arithmetic. -/
structure PyDate where
  year : Int
  day : Int
deriving DecidableEq

/-- A loaded worksheet: row-major cell lists; `cell` is 1-based like
openpyxl, out-of-range cells read as blank. -/
structure XSheet where
  rows : List (List CellVal)
deriving DecidableEq

/-- The 1-based cell accessor `ws.cell(row=r, column=c).value`. -/
def XSheet.cell (ws : XSheet) (r c : Nat) : CellVal :=
  (ws.rows.getD (r - 1) []).getD (c - 1) CellVal.empty

/-- Model of `ws.max_row`. -/
def XSheet.maxRow (ws : XSheet) : Nat := ws.rows.length

/-- Model of `ws.max_column`. -/
def XSheet.maxCol (ws : XSheet) : Nat :=
  ws.rows.foldr (fun row m => max row.length m) 0

/-- Overwrite one (in-range) cell. -/
def XSheet.setCell (ws : XSheet) (r c : Nat) (v : CellVal) : XSheet :=
  ⟨ws.rows.set (r - 1) ((ws.rows.getD (r - 1) []).set (c - 1) v)⟩

/-- The header-cell test of lines 656-666: a truthy cell whose string
rendering contains "Linear Ticket" (only text cells can). -/
def headerCellHit (v : CellVal) : Bool :=
  match v with
  | .str s => s ≠ "" && pyContainsSub s "Linear Ticket"
  | _ => false

/-- Lines 652-666: scan rows `range(1, min(50, max_row + 1))`, checking
column G then column F, for the "Linear Ticket" header; returns
`(header_row, linear_ticket_col)`. -/
def findHeader (ws : XSheet) : Option (Nat × Nat) :=
  (List.range' 1 (min 50 (ws.maxRow + 1) - 1)).findSome? (fun r =>
    if headerCellHit (ws.cell r 7) then some (r, 7)
    else if headerCellHit (ws.cell r 6) then some (r, 6)
    else none)

/-- The capacity-label test of line 684: `str(cell).strip() == "Capacity"`
on a truthy cell. -/
def isCapacityCell (v : CellVal) : Bool :=
  match v with
  | .str s => s ≠ "" && pyStrip s = "Capacity"
  | _ => false

/-- Lines 679-688: first row before the header row with "Capacity" in one of
columns 6-9. -/
def findCapacityRow (ws : XSheet) (header_row : Nat) : Option Nat :=
  (List.range' 1 (header_row - 1)).find? (fun r =>
    (List.range' 6 4).any (fun c => isCapacityCell (ws.cell r c)))

/-- Line 691: parse dates from the capacity header row when found, else from
the data header row. -/
def dateHeaderRow (ws : XSheet) (header_row : Nat) : Nat :=
  (findCapacityRow ws header_row).getD header_row

/-- Lines 696-711: the date a header cell yields — datetime cells directly;
string cells through `strptime` with the current start year, retried with
the next year when the parse lands before the start date; anything else (or
a parse failure) is skipped. -/
def parseHeaderDate (v : CellVal) (start : PyDate) : Option Int :=
  match v with
  | .date t => some t
  | .str s =>
    match parseMD s start.year with
    | none => none
    | some t => if t < start.day then parseMD s (start.year + 1) else some t
  | _ => none

/-- Lines 694-719: the `(column, week_index)` pairs discovered across the
week columns, in column order, keeping only parses with a nonnegative week
index. -/
def weekColEntries (ws : XSheet) (dhr week_start_col : Nat) (start : PyDate) :
    List (Nat × Int) :=
  (List.range' week_start_col (ws.maxCol + 1 - week_start_col)).filterMap (fun c =>
    match parseHeaderDate (ws.cell dhr c) start with
    | some t =>
      let wi := Int.fdiv (t - start.day) 7
      if 0 ≤ wi then some (c, wi) else none
    | none => none)

/-- The column the `week_col_map` dict finally holds for a week index: the
last inserted one. -/
def lastColFor (entries : List (Nat × Int)) (wi : Int) : Option Nat :=
  ((entries.filter (fun p => decide (p.2 = wi))).getLast?).map Prod.fst

/-- The items of `week_col_map`: one entry per distinct week index, carrying
the last column inserted for it.  (Item order does not affect the read-back
dicts, whose keys are distinct per row.) -/
def wcmItems (entries : List (Nat × Int)) : List (Int × Nat) :=
  ((entries.map Prod.snd).dedup).filterMap (fun wi =>
    (lastColFor entries wi).map (fun c => (wi, c)))

/-- Line 718: the running maximum week index, starting from 0. -/
def maxWeekIdx (entries : List (Nat × Int)) : Int :=
  entries.foldl (fun m p => max m p.2) 0

/-- The ticket-URL cell of a data row (line 723); the generator writes
strings there, so only text cells are modelled as URLs, and a falsy cell
skips the row. -/
def urlOfCell : CellVal → Option String
  | .str u => if u = "" then none else some u
  | _ => none

/-- The assignee cell of a data row (lines 728-730); the generator writes
strings there, so only truthy text cells are modelled. -/
def asgOfCell : CellVal → Option String
  | .str a => if a = "" then none else some a
  | _ => none

/-- Lines 733-742 applied to `float(cell)`: numbers pass through, strings
are parsed, datetimes raise (swallowed). -/
def pyFloatOfCell : CellVal → Option Rat
  | .num q => some q
  | .str s => parsePyFloat s
  | _ => none

/-- The `(url, week_index) -> value` entries one data row contributes
(lines 732-742): per mapped week column, a non-blank cell whose float value
is strictly positive. -/
def rowCapEntries (ws : XSheet) (r : Nat) (wcm : List (Int × Nat)) (url : String) :
    List ((String × Int) × Rat) :=
  wcm.filterMap (fun p =>
    let v := ws.cell r p.2
    if v = CellVal.empty ∨ v = CellVal.str "" then none
    else
      match pyFloatOfCell v with
      | some q => if 0 < q then some ((url, p.1), q) else none
      | none => none)

/-- Lines 721-742: walk the data rows below the header; rows with a truthy
URL cell contribute their assignee text and positive week values.  The
association lists prepend later rows, so lookups see the last write, like
the Python dicts. -/
def readDataRows (ws : XSheet) (header_row ltcol : Nat) (wcm : List (Int × Nat)) :
    List ((String × Int) × Rat) × List (String × String) :=
  (List.range' (header_row + 1) (ws.maxRow - header_row)).foldl
    (fun acc r =>
      match urlOfCell (ws.cell r ltcol) with
      | none => acc
      | some url =>
        (rowCapEntries ws r wcm url ++ acc.1,
         match asgOfCell (ws.cell r (ltcol + 1)) with
         | some a => (url, a) :: acc.2
         | none => acc.2))
    ([], [])

/-- Shallow embedding of `read_existing_capacity_data` (lines 634-744):
recover the capacity map, the assignee map and `max_week_idx + 1`; a missing
"Linear Ticket" header yields empty maps and 0. -/
def read_existing_capacity_data (ws : XSheet) (start : PyDate) :
    List ((String × Int) × Rat) × List (String × String) × Int :=
  match findHeader ws with
  | none => ([], [], 0)
  | some (hr, ltcol) =>
    let dhr := dateHeaderRow ws hr
    let entries := weekColEntries ws dhr (ltcol + 2) start
    let data := readDataRows ws hr ltcol (wcmItems entries)
    (data.1, data.2, maxWeekIdx entries + 1)

/-! ### Concrete instances used by counterexamples and witnesses -/

/-- An issue with an estimate and a cycle but no assignee. -/
def issueU : Issue :=
  { estimate := some 5, cycleStartsAt := DateStr.iso "2025-10-14" 1209600,
    stateType := "unstarted" }

/-- An issue with a null estimate whose URL has a reconciled placement. -/
def issueD : Issue :=
  { url := "u4", estimate := none, assigneeName := "bob@co.com", stateType := "started" }

/-- An issue with a fresh assignee but no Linear placement (backlog, no
cycle). -/
def issueM : Issue :=
  { url := "u3", estimate := some 3, assigneeName := "alice@co.com", stateType := "backlog" }

/-- An assigned, active, estimated issue with no cycle: placed as text. -/
def issueNC : Issue :=
  { assigneeName := "alice@co.com", estimate := some 3, stateType := "started",
    updatedAt := DateStr.iso "2025-09-30" 0 }

/-- A concrete loaded sheet: the "Linear Ticket" header in row 1 column G, an
unparseable week header in column 9, a good week header (a date cell one week
after the start) in column 10, and one data row. -/
def wsW : XSheet :=
  ⟨[[CellVal.empty, CellVal.empty, CellVal.empty, CellVal.empty, CellVal.empty,
     CellVal.empty, CellVal.str "Linear Ticket", CellVal.empty, CellVal.str "garbage",
     CellVal.date 1007],
    [CellVal.empty, CellVal.empty, CellVal.empty, CellVal.empty, CellVal.empty,
     CellVal.empty, CellVal.str "http://u", CellVal.str "Alice", CellVal.num 9,
     CellVal.num 2]]⟩

/-- The start date wsW was generated from. -/
def startW : PyDate := ⟨2025, 1000⟩

/-! ## Helper lemmas -/

/-- The caller-side clamp always lands inside the window when it has at
least one week. -/
theorem clampWeekIdx_bounds (w nw : Int) (h : 1 ≤ nw) :
    0 ≤ clampWeekIdx w nw ∧ clampWeekIdx w nw < nw := by
  unfold clampWeekIdx
  split_ifs <;> omega

/-! ## C10: the CLI imports functions excel_generator does not define -/

/-- C10: linear_to_excel.py imports append_to_excel, overwrite_excel,
create_excel_by_cycles and create_excel_by_weeks from excel_generator, but
excel_generator defines none of them (its entry points are create_excel and
refresh_excel), so the from-import raises ImportError on every invocation of
the CLI module. -/
theorem cli_import_raises :
    importSucceeds excelGeneratorDefs cliExcelImports = false ∧
    excelGeneratorDefs.contains "append_to_excel" = false ∧
    excelGeneratorDefs.contains "overwrite_excel" = false ∧
    excelGeneratorDefs.contains "create_excel_by_cycles" = false ∧
    excelGeneratorDefs.contains "create_excel_by_weeks" = false ∧
    excelGeneratorDefs.contains "create_excel" = true ∧
    excelGeneratorDefs.contains "refresh_excel" = true := by decide

/-! ## C8: format_name totality -/

/-- C8 counterexample: format_name does not return a result for every input
string — on the whitespace-only name " " with first_only, the processed name
is truthy but `" ".split()` is empty, so `[0]` raises IndexError (modelled as
`none`). -/
theorem format_name_raises_on_space : format_name " " true = none := by decide

/-- C8 (amended): format_name computes the described normalisation — the
part before `@` split on dots, capitalized and joined with spaces, otherwise
the input verbatim; first whitespace token under first_only; empty input
unchanged — except that it raises IndexError when first_only is true and the
processed name is nonempty but whitespace-only (no tokens). -/
theorem format_name_amended (name : String) (first_only : Bool)
    (h : first_only = true → emailNorm name = "" ∨ pySplitWS (emailNorm name) ≠ []) :
    format_name name first_only = some (formatNameSpec name first_only) := by
  unfold format_name formatNameSpec
  by_cases hn : name = ""
  · simp [hn]
  · simp only [hn, if_false]
    cases first_only with
    | false => simp
    | true =>
      simp only [if_true]
      by_cases he : emailNorm name = ""
      · simp [he, pySplitWS, splitCharsBy]
      · rcases h rfl with he2 | ht
        · exact absurd he2 he
        · cases hsp : pySplitWS (emailNorm name) with
          | nil => exact absurd hsp ht
          | cons t ts => simp [he, hsp]

/-- C8 witness: the amended theorem applied to "john.doe@company.com". -/
theorem format_name_amended_witness :
    format_name "john.doe@company.com" true
      = some (formatNameSpec "john.doe@company.com" true) ∧
    formatNameSpec "john.doe@company.com" true = "John" :=
  ⟨format_name_amended "john.doe@company.com" true (fun _ => Or.inr (by decide)),
   by decide⟩

/-! ## C7: get_week_index sentinels and their callers -/

/-- C7 counterexample: the -1 (unparseable) and -2 (before window) sentinels
are distinct, but the callers do not handle the three out-of-window cases
differently — populate_sheet's clamp sends both negative sentinels to the
same week 0. -/
theorem week_sentinels_collapsed_by_caller :
    get_week_index (DateStr.invalid "garbage") 0 13 = -1 ∧
    get_week_index (DateStr.iso "2024-12-23" (-864000)) 0 13 = -2 ∧
    clampWeekIdx (get_week_index (DateStr.invalid "garbage") 0 13) 13 =
      clampWeekIdx (get_week_index (DateStr.iso "2024-12-23" (-864000)) 0 13) 13 := by
  decide

/-- C7 (amended): get_week_index returns three mutually distinguishable
outcomes — -1 for missing/unparseable input, -2 for a date before the window
start, and a value ≥ num_weeks for a date past the window — but its callers
clamp instead of branching on them: every negative sentinel is mapped to
week 0, so unparseable and before-window are handled identically. -/
theorem get_week_index_amended (s nw : Int) (hnw : 0 ≤ nw) :
    (∀ d : DateStr, d.raw = "" ∨ d.parse = none → get_week_index d s nw = -1) ∧
    (∀ r t, r ≠ "" → t < s → get_week_index (DateStr.iso r t) s nw = -2) ∧
    (∀ r t, r ≠ "" → s + 604800 * nw ≤ t → nw ≤ get_week_index (DateStr.iso r t) s nw) ∧
    (∀ d : DateStr, get_week_index d s nw < 0 →
      clampWeekIdx (get_week_index d s nw) nw = 0) := by
  refine ⟨?_, ?_, ?_, ?_⟩
  · intro d hd
    cases d with
    | empty => simp [get_week_index, DateStr.raw]
    | invalid s2 => by_cases h : s2 = "" <;> simp [get_week_index, DateStr.raw, h]
    | iso s2 t =>
      rcases hd with h | h
      · simp only [DateStr.raw] at h
        simp [get_week_index, DateStr.raw, h]
      · simp [DateStr.parse] at h
  · intro r t hr hts
    have h1 := Int.fdiv_add_fmod (t - s) 86400
    have h2 := Int.fmod_nonneg' (t - s) (show (0:Int) < 86400 by norm_num)
    have h3 := Int.fmod_lt_of_pos (t - s) (show (0:Int) < 86400 by norm_num)
    have hd : Int.fdiv (t - s) 86400 < 0 := by omega
    simp [get_week_index, DateStr.raw, hr, hd]
  · intro r t hr hts
    have h1 := Int.fdiv_add_fmod (t - s) 86400
    have h2 := Int.fmod_nonneg' (t - s) (show (0:Int) < 86400 by norm_num)
    have h3 := Int.fmod_lt_of_pos (t - s) (show (0:Int) < 86400 by norm_num)
    have hq7 : 7 * nw ≤ Int.fdiv (t - s) 86400 := by omega
    have h4 := Int.fdiv_add_fmod (Int.fdiv (t - s) 86400) 7
    have h5 := Int.fmod_nonneg' (Int.fdiv (t - s) 86400) (show (0:Int) < 7 by norm_num)
    have h6 := Int.fmod_lt_of_pos (Int.fdiv (t - s) 86400) (show (0:Int) < 7 by norm_num)
    have hd : ¬ Int.fdiv (t - s) 86400 < 0 := by omega
    have hnq : nw ≤ Int.fdiv (Int.fdiv (t - s) 86400) 7 := by omega
    simpa [get_week_index, DateStr.raw, hr, hd] using hnq
  · intro d h
    simp [clampWeekIdx, h]

/-- C7 witness: the amended theorem applied over a 13-week window starting
at timestamp 0. -/
theorem get_week_index_amended_witness :
    get_week_index (DateStr.invalid "not a date") 0 13 = -1 ∧
    get_week_index (DateStr.iso "2024-12-23" (-864000)) 0 13 = -2 ∧
    13 ≤ get_week_index (DateStr.iso "2026-01-05" 7862400) 0 13 ∧
    clampWeekIdx (get_week_index (DateStr.invalid "not a date") 0 13) 13 = 0 := by
  have h := get_week_index_amended 0 13 (by norm_num)
  exact ⟨h.1 _ (Or.inr rfl), h.2.1 _ _ (by decide) (by norm_num),
    h.2.2.1 _ _ (by decide) (by norm_num), h.2.2.2 _ (by decide)⟩

/-! ## C2: conditions for a weekly placement in populate_sheet -/

/-- C2 counterexample: populate_sheet places a weekly capacity value for an
issue with no assignee — the weekly-fill code never checks the assignee. -/
theorem placement_without_assignee :
    issueU.assigneeName = "" ∧
    placeIssue none 0 13 issueU = some (2, CellVal.num 5) := by decide

/-- C2 (amended): populate_sheet places a weekly value iff the issue has a
non-null estimate AND either a nonempty cycle-start string that passes the
raw-string boundary comparison (when a boundary is active), or no cycle
and a state type outside backlog/triage/canceled/cancelled.  No assignee is
required, an unparseable cycle date still places (clamped to week 0), and a
missing updatedAt still places (at the last week); every placement lands
inside the window. -/
theorem placeIssue_amended (cycle_start : Option String) (start_ts num_weeks : Int)
    (i : Issue) (hnw : 1 ≤ num_weeks) :
    ((placeIssue cycle_start start_ts num_weeks i).isSome ↔
      i.estimate.isSome ∧
        ((i.cycleStartsAt.raw ≠ "" ∧ ∀ cb, cycle_start = some cb → i.cycleStartsAt.raw ≤ cb) ∨
         (i.cycleStartsAt.raw = "" ∧ pyLower i.stateType ∉ INACTIVE_STATUS_TYPES))) ∧
    (∀ w v, placeIssue cycle_start start_ts num_weeks i = some (w, v) →
      0 ≤ w ∧ w < num_weeks) := by
  constructor
  · unfold placeIssue
    cases hest : i.estimate with
    | none => simp
    | some est =>
      simp only [Option.isSome_some, true_and]
      by_cases hcyc : i.cycleStartsAt.raw = ""
      · by_cases hst : pyLower i.stateType ∈ INACTIVE_STATUS_TYPES <;>
          simp [hcyc, hst]
      · cases cycle_start with
        | none =>
          simp only [hcyc]
          constructor
          · intro _
            exact Or.inl ⟨hcyc, fun cb2 h => by cases h⟩
          · intro _
            simp [hcyc]
        | some cb =>
          by_cases hb : i.cycleStartsAt.raw ≤ cb
          · constructor
            · intro _
              exact Or.inl ⟨hcyc, fun cb2 h => by cases h; exact hb⟩
            · intro _
              simp [hcyc, hb]
          · constructor
            · intro hs
              simp [hcyc, hb] at hs
            · rintro (⟨_, hall⟩ | ⟨hraw, _⟩)
              · exact absurd (hall cb rfl) hb
              · exact absurd hraw hcyc
  · intro w v hp
    unfold placeIssue at hp
    cases hest : i.estimate with
    | none => rw [hest] at hp; cases hp
    | some est =>
      rw [hest] at hp
      by_cases hcyc : i.cycleStartsAt.raw = ""
      · by_cases hst : pyLower i.stateType ∈ INACTIVE_STATUS_TYPES
        · simp [hcyc, hst] at hp
        · by_cases hupd : i.updatedAt.raw = ""
          · simp [hcyc, hst, hupd] at hp
            obtain ⟨hw, -⟩ := hp
            omega
          · simp [hcyc, hst, hupd] at hp
            obtain ⟨hw, -⟩ := hp
            have hb := clampWeekIdx_bounds
              (get_week_index i.updatedAt start_ts num_weeks) num_weeks hnw
            omega
      · have hbnds := clampWeekIdx_bounds
          (get_week_index i.cycleStartsAt start_ts num_weeks) num_weeks hnw
        cases cycle_start with
        | none =>
          simp [hcyc] at hp
          obtain ⟨hw, -⟩ := hp
          omega
        | some cb =>
          by_cases hb : i.cycleStartsAt.raw ≤ cb
          · simp [hcyc, hb] at hp
            obtain ⟨hw, -⟩ := hp
            omega
          · simp [hcyc, hb] at hp

/-- C2 witness: the amended theorem applied to issueU in a 13-week window. -/
theorem placeIssue_amended_witness :
    (placeIssue none 0 13 issueU).isSome = true ∧
    0 ≤ (2 : Int) ∧ (2 : Int) < 13 := by
  have h := placeIssue_amended none 0 13 issueU (by norm_num)
  refine ⟨h.1.mpr ⟨by decide, Or.inl ⟨by decide, fun cb hcb => by cases hcb⟩⟩, ?_⟩
  exact h.2 2 (CellVal.num 5) (by decide)

/-! ## C5: zero estimates still place -/

/-- C5: an issue with estimate 0 and a resolvable placement date (a cycle
start, or an active status with an updatedAt) still receives a weekly
placement, because the gate is `estimate is not None`: value 0 in the cycle
case, the text "0 (No cycle!)" in the no-cycle case. -/
theorem zero_estimate_still_placed (start_ts num_weeks : Int) (i : Issue)
    (hnw : 1 ≤ num_weeks) (h0 : i.estimate = some 0)
    (hdate : i.cycleStartsAt.raw ≠ "" ∨
      (pyLower i.stateType ∉ INACTIVE_STATUS_TYPES ∧ i.updatedAt.raw ≠ "")) :
    ∃ w, 0 ≤ w ∧ w < num_weeks ∧
      (placeIssue none start_ts num_weeks i = some (w, CellVal.num 0) ∨
       placeIssue none start_ts num_weeks i = some (w, CellVal.str "0 (No cycle!)")) := by
  by_cases hcyc : i.cycleStartsAt.raw ≠ ""
  · refine ⟨clampWeekIdx (get_week_index i.cycleStartsAt start_ts num_weeks) num_weeks,
      (clampWeekIdx_bounds _ _ hnw).1, (clampWeekIdx_bounds _ _ hnw).2, Or.inl ?_⟩
    simp [placeIssue, h0, hcyc]
  · rcases hdate with h | ⟨hst, hupd⟩
    · exact absurd h hcyc
    · refine ⟨clampWeekIdx (get_week_index i.updatedAt start_ts num_weeks) num_weeks,
        (clampWeekIdx_bounds _ _ hnw).1, (clampWeekIdx_bounds _ _ hnw).2, Or.inr ?_⟩
      push_neg at hcyc
      simp [placeIssue, h0, hcyc, hst, hupd]
      decide

/-- C5 witness: a zero-estimate issue with a cycle in week 2 is placed with
value 0. -/
theorem zero_estimate_still_placed_witness :
    ∃ w, 0 ≤ w ∧ w < (13 : Int) ∧
      (placeIssue none 0 13
          { estimate := some 0, cycleStartsAt := DateStr.iso "2025-10-14" 1209600,
            stateType := "started" } = some (w, CellVal.num 0) ∨
       placeIssue none 0 13
          { estimate := some 0, cycleStartsAt := DateStr.iso "2025-10-14" 1209600,
            stateType := "started" } = some (w, CellVal.str "0 (No cycle!)")) :=
  zero_estimate_still_placed 0 13 _ (by norm_num) rfl (Or.inl (by decide))

/-! ## C4: null estimates and the refresh restoration path -/

/-- Characterisation of `intRange` membership. -/
theorem mem_intRange (w n : Int) : w ∈ intRange n ↔ 0 ≤ w ∧ w < n := by
  unfold intRange
  constructor
  · intro h
    rw [List.mem_map] at h
    obtain ⟨a, ha, hw⟩ := h
    rw [List.mem_range] at ha
    omega
  · intro h
    rw [List.mem_map]
    refine ⟨w.toNat, ?_, by omega⟩
    rw [List.mem_range]
    omega

/-- Membership in the restoration output: exactly the strictly positive
reconciled values for this URL at in-window week indices. -/
theorem mem_restoredCells (num_weeks : Int) (ec : List ((String × Int) × Rat)) (url : String)
    (w : Int) (v : CellVal) :
    (w, v) ∈ restoredCells num_weeks ec url ↔
      ∃ q, lookupCap ec url w = some q ∧ 0 < q ∧ v = CellVal.num q ∧ 0 ≤ w ∧ w < num_weeks := by
  unfold restoredCells
  rw [List.mem_filterMap]
  constructor
  · rintro ⟨w2, hw2, hmatch⟩
    rw [mem_intRange] at hw2
    cases hl : lookupCap ec url w2 with
    | none => rw [hl] at hmatch; cases hmatch
    | some q =>
      rw [hl] at hmatch
      have hmatch2 : (if 0 < q then some (w2, CellVal.num q) else none) = some (w, v) :=
        hmatch
      by_cases hq : 0 < q
      · rw [if_pos hq] at hmatch2
        cases hmatch2
        exact ⟨q, hl, hq, rfl, hw2.1, hw2.2⟩
      · rw [if_neg hq] at hmatch2; cases hmatch2
  · rintro ⟨q, hl, hq, rfl, hw0, hwn⟩
    refine ⟨w, (mem_intRange w num_weeks).mpr ⟨hw0, hwn⟩, ?_⟩
    simp only [hl]
    simp [hq]

/-- C4 counterexample: on refresh, an issue whose estimate is null still gets
a weekly cell — the restoration of existing-file placements (lines 585-593)
is not guarded by the estimate — and that cell feeds the per-assignee SUMIF
total. -/
theorem null_estimate_restored_on_refresh :
    issueD.estimate = none ∧
    placeIssueRefresh 0 13 [(("u4", 0), 2)] issueD = [(0, CellVal.num 2)] ∧
    sumifEval [⟨CellVal.str "Bob", placeIssueRefresh 0 13 [(("u4", 0), 2)] issueD⟩] "Bob" 0
      = 2 := by
  refine ⟨rfl, by decide, ?_⟩
  have h : placeIssueRefresh 0 13 [(("u4", 0), 2)] issueD = [(0, CellVal.num 2)] := by decide
  rw [h, sumifEval]
  simp [rowContrib, weekVal, cellNum]

/-- C4 (amended): a null-estimate item receives no weekly placement from
populate_sheet and none from the fresh (Linear) paths of
populate_sheet_refresh; but the refresh restoration path may still fill its
row with carried-over positive values from the existing file — every such
cell comes from the reconciled capacity map. -/
theorem null_estimate_amended (cycle_start : Option String) (start_ts num_weeks : Int)
    (ec : List ((String × Int) × Rat)) (i : Issue) (h : i.estimate = none) :
    placeIssue cycle_start start_ts num_weeks i = none ∧
    placeIssueRefresh start_ts num_weeks [] i = [] ∧
    (∀ w v, (w, v) ∈ placeIssueRefresh start_ts num_weeks ec i →
      ∃ q, lookupCap ec i.url w = some q ∧ 0 < q ∧ v = CellVal.num q) := by
  have hlp : linearPlacement start_ts num_weeks i = none := by
    unfold linearPlacement; rw [h]
  refine ⟨?_, ?_, ?_⟩
  · unfold placeIssue; rw [h]
  · unfold placeIssueRefresh
    rw [hlp]
    simp [restoredCells, lookupCap]
  · intro w v hm
    unfold placeIssueRefresh at hm
    rw [hlp] at hm
    rcases (mem_restoredCells _ _ _ _ _).mp hm with ⟨q, hq1, hq2, hq3, -, -⟩
    exact ⟨q, hq1, hq2, hq3⟩

/-- C4 witness: the amended theorem applied to issueD. -/
theorem null_estimate_amended_witness :
    placeIssue none 0 13 issueD = none ∧ placeIssueRefresh 0 13 [] issueD = [] :=
  ⟨(null_estimate_amended none 0 13 [] issueD rfl).1,
   (null_estimate_amended none 0 13 [] issueD rfl).2.1⟩

/-! ## C3: the refresh merge policy -/

/-- C3 counterexample: a freshly fetched item WITH an assignee whose
reconciled week placements nevertheless survive into the new sheet — the
restoration is keyed on `has_linear_placement`, not on the assignee — and
whose estimate is not placed at any freshly computed index. -/
theorem refresh_merge_counterexample :
    linearHasAssignee issueM = true ∧
    linearPlacement 0 13 issueM = none ∧
    placeIssueRefresh 0 13 [(("u3", 1), 4)] issueM = [(1, CellVal.num 4)] := by decide

/-- C3 (amended): on refresh the fresh assignee, when present, overrides the
reconciled assignee (and only then); but week placements are merged on a
different key: the reconciled placements survive exactly when Linear places
nothing (no cycle-with-estimate and no active-status no-cycle placement),
regardless of the assignee. -/
theorem refresh_merge_amended (start_ts num_weeks : Int) (ea : List (String × String))
    (ec : List ((String × Int) × Rat)) (i : Issue) :
    (linearHasAssignee i = true → refreshAssigneeName ea i = displayName i) ∧
    (linearHasAssignee i = false →
      refreshAssigneeName ea i
        = ((ea.find? (fun p => decide (p.1 = i.url))).map Prod.snd).getD "") ∧
    (linearPlacement start_ts num_weeks i = none →
      placeIssueRefresh start_ts num_weeks ec i = restoredCells num_weeks ec i.url) ∧
    (∀ p, linearPlacement start_ts num_weeks i = some p →
      placeIssueRefresh start_ts num_weeks ec i = [p]) ∧
    (∀ w v, (w, v) ∈ restoredCells num_weeks ec i.url ↔
      ∃ q, lookupCap ec i.url w = some q ∧ 0 < q ∧ v = CellVal.num q ∧
        0 ≤ w ∧ w < num_weeks) := by
  refine ⟨?_, ?_, ?_, ?_, ?_⟩
  · intro h
    simp [refreshAssigneeName, h]
  · intro h
    simp [refreshAssigneeName, h]
  · intro h
    simp [placeIssueRefresh, h]
  · intro p h
    simp [placeIssueRefresh, h]
  · intro w v
    exact mem_restoredCells num_weeks ec i.url w v

/-- C3 witness: the amended theorem applied to issueM. -/
theorem refresh_merge_amended_witness :
    refreshAssigneeName [] issueM = displayName issueM ∧
    placeIssueRefresh 0 13 [(("u3", 1), 4)] issueM
      = restoredCells 13 [(("u3", 1), 4)] issueM.url := by
  have h := refresh_merge_amended 0 13 [] [(("u3", 1), 4)] issueM
  exact ⟨h.1 (by decide), h.2.2.1 (by decide)⟩

/-! ## C6: the historical-assignee resolver -/

/-- On a sorted list, taking while a downward-closed predicate holds is the
same as filtering by it. -/
theorem takeWhile_eq_filter_of_sorted {α : Type} (p : α → Bool) (le : α → α → Prop)
    (hmono : ∀ a b, le a b → p b = true → p a = true) :
    ∀ l : List α, l.Pairwise le → l.takeWhile p = l.filter p := by
  intro l
  induction l with
  | nil => intro _; rfl
  | cons a l ih =>
    intro hl
    rcases List.pairwise_cons.mp hl with ⟨ha, hl2⟩
    cases hp : p a with
    | true => simp [List.takeWhile_cons, List.filter_cons, hp, ih hl2]
    | false =>
      simp only [List.takeWhile_cons, List.filter_cons, hp, Bool.false_eq_true, if_false]
      symm
      rw [List.filter_eq_nil_iff]
      intro b hb hpb
      have := hmono a b (ha b hb) hpb
      rw [hp] at this
      cases this

/-- C6: assigneeAsOf is a left fold, over the log sorted ascending by
timestamp, of the entries with timestamp ≤ target, starting from
"unassigned" (assignee-to sets, assignee-from-without-to resets); the
two-entry scenario {t1: unassigned→Alice}, {t2: Alice→Bob} with t1 < t2
yields "unassigned" before t1, "Alice" in [t1, t2), "Bob" from t2 on; and an
empty log falls back to the item's present-day assignee. -/
theorem assigneeAsOf_spec (item : Issue) (log : List HistoryEntry) (target : Int)
    (t1 t2 t : Int) (h12 : t1 < t2) :
    (log ≠ [] → assigneeAsOf item log target =
      ((sortedLog log).filter (fun e => decide (e.1 ≤ target))).foldl
        (fun cur e => assigneeStep cur e.2) "unassigned") ∧
    assigneeAsOf item [] target =
      (if item.assigneeName = "" then "unassigned" else item.assigneeName) ∧
    assigneeAsOf item
        [⟨some t1, some "Alice", none⟩, ⟨some t2, some "Bob", some "Alice"⟩] t =
      (if t < t1 then "unassigned" else if t < t2 then "Alice" else "Bob") := by
  have htf : ∀ (lg : List HistoryEntry) (tgt : Int),
      (sortedLog lg).takeWhile (fun e => decide (e.1 ≤ tgt))
        = (sortedLog lg).filter (fun e => decide (e.1 ≤ tgt)) := by
    intro lg tgt
    refine takeWhile_eq_filter_of_sorted _ tsLE ?_ _ (List.sorted_insertionSort tsLE _)
    intro a b hab hpb
    simp only [decide_eq_true_eq] at hpb ⊢
    exact le_trans hab hpb
  refine ⟨?_, ?_, ?_⟩
  · intro h
    have hne : log.isEmpty = false := by
      cases log with
      | nil => exact absurd rfl h
      | cons a l => rfl
    rw [assigneeAsOf, hne]
    simp only [Bool.false_eq_true, if_false]
    rw [htf log target]
  · rfl
  · have hsl : sortedLog
        [⟨some t1, some "Alice", none⟩, ⟨some t2, some "Bob", some "Alice"⟩]
        = [(t1, ⟨some t1, some "Alice", none⟩), (t2, ⟨some t2, some "Bob", some "Alice"⟩)] := by
      simp [sortedLog, List.filterMap, List.insertionSort, List.orderedInsert, tsLE, h12.le]
    rw [assigneeAsOf]
    simp only [List.isEmpty_cons, Bool.false_eq_true, if_false]
    rw [hsl]
    by_cases h1 : t1 ≤ t
    · by_cases h2 : t2 ≤ t
      · have htw : List.takeWhile (fun e => decide (e.1 ≤ t))
            [((t1 : Int), (⟨some t1, some "Alice", none⟩ : HistoryEntry)),
             (t2, ⟨some t2, some "Bob", some "Alice"⟩)]
            = [(t1, ⟨some t1, some "Alice", none⟩), (t2, ⟨some t2, some "Bob", some "Alice"⟩)] := by
          simp [List.takeWhile_cons, h1, h2]
        rw [htw, if_neg (by omega), if_neg (by omega)]
        rfl
      · have htw : List.takeWhile (fun e => decide (e.1 ≤ t))
            [((t1 : Int), (⟨some t1, some "Alice", none⟩ : HistoryEntry)),
             (t2, ⟨some t2, some "Bob", some "Alice"⟩)]
            = [(t1, ⟨some t1, some "Alice", none⟩)] := by
          simp [List.takeWhile_cons, h1, h2]
        rw [htw, if_neg (by omega), if_pos (by omega)]
        rfl
    · have htw : List.takeWhile (fun e => decide (e.1 ≤ t))
          [((t1 : Int), (⟨some t1, some "Alice", none⟩ : HistoryEntry)),
           (t2, ⟨some t2, some "Bob", some "Alice"⟩)]
          = [] := by
        simp [List.takeWhile_cons, h1]
      rw [htw, if_pos (by omega)]
      rfl

/-- C6 witness: the scenario with t1 = 0, t2 = 10, queried at t = 5. -/
theorem assigneeAsOf_spec_witness :
    assigneeAsOf {} [⟨some 0, some "Alice", none⟩, ⟨some 10, some "Bob", some "Alice"⟩] 5
      = "Alice" := by
  have h := (assigneeAsOf_spec {} [] 0 0 10 5 (by norm_num)).2.2
  norm_num at h
  exact h

/-! ## C1: the capacity SUMIF aggregates -/

/-- SUMIF evaluation distributes over row ranges. -/
theorem sumifEval_append (r1 r2 : List DataRow) (a : String) (w : Int) :
    sumifEval (r1 ++ r2) a w = sumifEval r1 a w + sumifEval r2 a w := by
  unfold sumifEval
  rw [List.map_append, List.sum_append]

/-- SUMIF evaluation over rows generated from issues. -/
theorem sumifEval_map (f : Issue → DataRow) (l : List Issue) (a : String) (w : Int) :
    sumifEval (l.map f) a w = (l.map (fun i => rowContrib a w (f i))).sum := by
  unfold sumifEval
  rw [List.map_map]
  rfl

/-- Pointwise sum splitting. -/
theorem sum_map_add_split {κ : Type} (f g : κ → Rat) (l : List κ) :
    (l.map (fun k => f k + g k)).sum = (l.map f).sum + (l.map g).sum := by
  induction l with
  | nil => simp
  | cons a l ih =>
    simp only [List.map_cons, List.sum_cons, ih]
    ring

/-- Summing an indicator function over a duplicate-free list containing the
key picks out exactly one term. -/
theorem sum_map_single {κ : Type} [DecidableEq κ] (c : Rat) (k0 : κ) :
    ∀ ks : List κ, ks.Nodup → k0 ∈ ks →
      (ks.map (fun k => if k0 = k then c else 0)).sum = c := by
  intro ks
  induction ks with
  | nil => intro _ h; cases h
  | cons a ks ih =>
    intro hnd hmem
    rcases List.nodup_cons.mp hnd with ⟨hna, hnd2⟩
    rcases List.mem_cons.mp hmem with rfl | hmem2
    · have hz : (ks.map (fun k => if k0 = k then c else 0)).sum = 0 := by
        apply List.sum_eq_zero
        intro x hx
        rcases List.mem_map.mp hx with ⟨k, hk, rfl⟩
        rw [if_neg]
        rintro rfl
        exact hna hk
      simp [hz]
    · have hne : k0 ≠ a := by rintro rfl; exact hna hmem2
      simp only [List.map_cons, List.sum_cons, if_neg hne, zero_add]
      exact ih hnd2 hmem2

/-- Decomposing a sum over a list into sums over the fibers of a key
function, for any duplicate-free covering list of keys. -/
theorem sum_fiberwise {α κ : Type} [DecidableEq κ] (key : α → κ) (g : α → Rat) :
    ∀ (l : List α) (ks : List κ), ks.Nodup → (∀ i ∈ l, key i ∈ ks) →
      (ks.map (fun k => ((l.filter (fun i => decide (key i = k))).map g).sum)).sum
        = (l.map g).sum := by
  intro l
  induction l with
  | nil =>
    intro ks _ _
    simp only [List.filter_nil, List.map_nil, List.sum_nil]
    apply List.sum_eq_zero
    intro x hx
    rcases List.mem_map.mp hx with ⟨k, -, rfl⟩
    rfl
  | cons a l ih =>
    intro ks hnd hcov
    have hcov2 : ∀ i ∈ l, key i ∈ ks := fun i hi => hcov i (List.mem_cons_of_mem a hi)
    have hka : key a ∈ ks := hcov a (List.mem_cons_self a l)
    have hsplit : ∀ k : κ, ((List.filter (fun i => decide (key i = k)) (a :: l)).map g).sum
        = (if key a = k then g a else 0)
          + ((List.filter (fun i => decide (key i = k)) l).map g).sum := by
      intro k
      by_cases h : key a = k
      · simp [List.filter_cons, h]
      · simp [List.filter_cons, h]
    rw [List.map_congr_left (fun k _ => hsplit k), sum_map_add_split,
      sum_map_single (g a) (key a) ks hnd hka, ih ks hnd hcov2]
    simp

/-- A separator row contributes nothing to any SUMIF. -/
theorem sumifEval_sep (a : String) (w : Int) : sumifEval [sepRow] a w = 0 := by
  simp [sumifEval, rowContrib, sepRow]

/-- SUMIF over the generated data block, fiber by grouping key. -/
theorem sumif_buildRowsAux (cycle_start : Option String) (start_ts num_weeks : Int)
    (issues : List Issue) (a : String) (w : Int) :
    ∀ (ks : List (String × String)) (li : Option String),
      sumifEval (buildRowsAux cycle_start start_ts num_weeks issues li ks) a w
        = (ks.map (fun k => ((issues.filter (fun i => decide (groupKey i = k))).map
            (fun i => rowContrib a w (issueRow cycle_start start_ts num_weeks i))).sum)).sum := by
  intro ks
  induction ks with
  | nil =>
    intro li
    simp [buildRowsAux, sumifEval]
  | cons k ks ih =>
    intro li
    unfold buildRowsAux
    rw [sumifEval_append, sumifEval_append,
      sumifEval_map (issueRow cycle_start start_ts num_weeks), ih (some k.1)]
    have hsep : sumifEval (match li with
        | none => []
        | some li2 => if k.1 ≠ li2 then [sepRow] else []) a w = 0 := by
      cases li with
      | none => simp [sumifEval]
      | some li2 =>
        change sumifEval (if k.1 ≠ li2 then [sepRow] else []) a w = 0
        by_cases h : k.1 ≠ li2
        · rw [if_pos h]
          exact sumifEval_sep a w
        · rw [if_neg h]
          simp [sumifEval]
    rw [hsep, List.map_cons, List.sum_cons, zero_add]

/-- The contribution of one issue's row to the SUMIF for criterion `a`:
its numeric week-`w` cell when its assignee cell matches, else 0. -/
theorem rowContrib_issueRow (cycle_start : Option String) (start_ts num_weeks : Int)
    (i : Issue) (a : String) (w : Int) :
    rowContrib a w (issueRow cycle_start start_ts num_weeks i)
      = if assigneeCellOf i = a then numericContrib cycle_start start_ts num_weeks i w
        else 0 := by
  unfold rowContrib issueRow numericContrib
  by_cases h : assigneeCellOf i = a
  · rw [h, if_pos rfl, if_pos rfl]
    cases hp : placeIssue cycle_start start_ts num_weeks i with
    | none => simp [weekVal, cellNum]
    | some p =>
      obtain ⟨w2, v⟩ := p
      by_cases hw : w2 = w
      · subst hw
        cases v <;> simp [weekVal, List.find?, cellNum]
      · cases v <;> simp [weekVal, List.find?, hw, cellNum]
  · rw [if_neg h, if_neg]
    intro hc
    exact h (CellVal.str.inj hc)

/-- Turning a guarded sum into a sum over the filtered list. -/
theorem sum_map_ite {α : Type} (P : α → Prop) [DecidablePred P] (h : α → Rat) (l : List α) :
    (l.map (fun i => if P i then h i else 0)).sum
      = ((l.filter (fun i => decide (P i))).map h).sum := by
  induction l with
  | nil => rfl
  | cons a l ih =>
    by_cases hp : P a <;> simp [List.filter_cons, hp, ih]

/-- C1 (amended): after populate_sheet completes, each capacity cell's SUMIF
— rewritten over the final data-row range and recomputing from the current
cells — evaluates to the sum of the NUMERIC week-`w` values of the data rows
whose assignee cell equals the row's assignee, i.e. the cycle-placed
estimates of matching issues.  Text placements ("N (No cycle!)") are not
numeric and contribute nothing, so the claimed per-item sum over all placed
estimates overcounts. -/
theorem sumif_amended (cycle_start : Option String) (start_ts num_weeks : Int)
    (issues : List Issue) (a : String) (w : Int) :
    sumifEval (buildDataRows cycle_start start_ts num_weeks issues) a w
      = amendedDirectSum cycle_start start_ts num_weeks issues a w := by
  unfold buildDataRows amendedDirectSum
  rw [sumif_buildRowsAux cycle_start start_ts num_weeks issues a w (sortedKeys issues) none]
  have hperm : List.Perm (sortedKeys issues) ((issues.map groupKey).dedup) :=
    List.perm_insertionSort keyLE _
  have hnd : (sortedKeys issues).Nodup := hperm.nodup_iff.mpr (List.nodup_dedup _)
  have hcov : ∀ i ∈ issues, groupKey i ∈ sortedKeys issues := fun i hi =>
    hperm.mem_iff.mpr (List.mem_dedup.mpr (List.mem_map_of_mem groupKey hi))
  rw [sum_fiberwise groupKey _ issues (sortedKeys issues) hnd hcov]
  rw [List.map_congr_left
    (fun i _ => rowContrib_issueRow cycle_start start_ts num_weeks i a w)]
  exact sum_map_ite (fun i => assigneeCellOf i = a) _ issues

/-- C1 counterexample: for the one-issue sheet [issueNC] the SUMIF for
(Alice, week 0) evaluates to 0 — the no-cycle placement is the text
"3 (No cycle!)", which SUMIF does not count — while the claimed direct sum
`sum(estimate for item ...)` is 3. -/
theorem sumif_counterexample :
    sumifEval (buildDataRows none 0 13 [issueNC]) "Alice" 0 = 0 ∧
    claimDirectSum none 0 13 [issueNC] "Alice" 0 = 3 := by
  constructor
  · have h : buildDataRows none 0 13 [issueNC]
        = [⟨CellVal.str "Alice", [(0, CellVal.str "3 (No cycle!)")]⟩] := by decide
    rw [h, sumifEval]
    simp [rowContrib, weekVal, List.find?, cellNum]
  · have h : List.filter (fun i => decide (displayName i = "Alice")
        && decide (specWeekIndex none 0 13 i = some 0)) [issueNC] = [issueNC] := by decide
    rw [claimDirectSum, h]
    simp [issueNC]

/-! ## C9: graceful degradation of the reconciler -/

/-- `maxRow` is unchanged by overwriting a cell. -/
theorem maxRow_setCell (ws : XSheet) (R C : Nat) (v : CellVal) :
    (ws.setCell R C v).maxRow = ws.maxRow := by
  simp [XSheet.setCell, XSheet.maxRow]

/-- Width folding is unchanged when one row is replaced by an equally long
row. -/
theorem foldr_max_set (row : List CellVal) :
    ∀ (l : List (List CellVal)) (i : Nat), row.length = (l.getD i []).length →
      (l.set i row).foldr (fun r m => max r.length m) 0
        = l.foldr (fun r m => max r.length m) 0 := by
  intro l
  induction l with
  | nil => intro i _; rfl
  | cons a l ih =>
    intro i hlen
    cases i with
    | zero =>
      simp only [List.set, List.foldr]
      rw [hlen]
      rfl
    | succ n =>
      simp only [List.set, List.foldr]
      rw [ih n hlen]

/-- `maxCol` is unchanged by overwriting a cell. -/
theorem maxCol_setCell (ws : XSheet) (R C : Nat) (v : CellVal) :
    (ws.setCell R C v).maxCol = ws.maxCol := by
  unfold XSheet.setCell XSheet.maxCol
  apply foldr_max_set
  exact List.length_set _ _ _

/-- The rows of a sheet after overwriting a cell. -/
theorem rows_setCell (ws : XSheet) (R C : Nat) (v : CellVal) :
    (ws.setCell R C v).rows
      = ws.rows.set (R - 1) ((ws.rows.getD (R - 1) []).set (C - 1) v) := rfl

/-- The cell accessor in `getElem?` form. -/
theorem cell_eq (ws : XSheet) (r c : Nat) :
    ws.cell r c = ((ws.rows[r - 1]?.getD [])[c - 1]?).getD CellVal.empty := by
  unfold XSheet.cell
  simp only [List.getD_eq_getElem?_getD]

/-- Cells in other rows are unchanged by overwriting a cell. -/
theorem cell_setCell_row_ne (ws : XSheet) (R C r2 c2 : Nat) (v : CellVal)
    (hR : 1 ≤ R) (hr2 : 1 ≤ r2) (hne : r2 ≠ R) :
    (ws.setCell R C v).cell r2 c2 = ws.cell r2 c2 := by
  rw [cell_eq, cell_eq, rows_setCell, List.getElem?_set_ne (show R - 1 ≠ r2 - 1 by omega)]

/-- Cells in other columns are unchanged by overwriting a cell. -/
theorem cell_setCell_col_ne (ws : XSheet) (R C r2 c2 : Nat) (v : CellVal)
    (hC : 1 ≤ C) (hc2 : 1 ≤ c2) (hne : c2 ≠ C) :
    (ws.setCell R C v).cell r2 c2 = ws.cell r2 c2 := by
  rw [cell_eq, cell_eq, rows_setCell]
  by_cases h : R - 1 = r2 - 1
  · rw [← h]
    by_cases hlt : R - 1 < ws.rows.length
    · rw [List.getElem?_set_self hlt, Option.getD_some,
        List.getElem?_set_ne (show C - 1 ≠ c2 - 1 by omega), List.getD_eq_getElem?_getD]
    · rw [List.set_eq_of_length_le (by omega)]
  · rw [List.getElem?_set_ne h]

/-- Overwriting a nonblank cell stores the new value (nonblankness witnesses
that the position is in range). -/
theorem cell_setCell_self (ws : XSheet) (R C : Nat) (v : CellVal)
    (hin : ws.cell R C ≠ CellVal.empty) :
    (ws.setCell R C v).cell R C = v := by
  have hR : R - 1 < ws.rows.length := by
    by_contra hcon
    push_neg at hcon
    apply hin
    have hnone : ws.rows[R - 1]? = none := List.getElem?_eq_none (by omega)
    rw [cell_eq, hnone]
    rfl
  have hC2 : C - 1 < (ws.rows.getD (R - 1) []).length := by
    by_contra hcon
    push_neg at hcon
    apply hin
    rw [List.getD_eq_getElem?_getD] at hcon
    have hnone : (ws.rows[R - 1]?.getD [])[C - 1]? = none :=
      List.getElem?_eq_none (by omega)
    rw [cell_eq, hnone]
    rfl
  rw [cell_eq, rows_setCell, List.getElem?_set_self hR, Option.getD_some,
    List.getElem?_set_self (by simpa using hC2), Option.getD_some]

/-- `findSome?` only depends on the values of the function on the list. -/
theorem findSome?_congr {α β : Type} (f g : α → Option β) :
    ∀ l : List α, (∀ x ∈ l, f x = g x) → l.findSome? f = l.findSome? g := by
  intro l
  induction l with
  | nil => intro _; rfl
  | cons a l ih =>
    intro h
    rw [List.findSome?_cons, List.findSome?_cons, h a (List.mem_cons_self a l)]
    cases g a with
    | some b => rfl
    | none => exact ih (fun x hx => h x (List.mem_cons_of_mem a hx))

/-- `find?` only depends on the values of the predicate on the list. -/
theorem find?_congr {α : Type} (p q : α → Bool) :
    ∀ l : List α, (∀ x ∈ l, p x = q x) → l.find? p = l.find? q := by
  intro l
  induction l with
  | nil => intro _; rfl
  | cons a l ih =>
    intro h
    rw [List.find?_cons, List.find?_cons, h a (List.mem_cons_self a l)]
    cases q a with
    | true => rfl
    | false => exact ih (fun x hx => h x (List.mem_cons_of_mem a hx))

/-- `any` only depends on the values of the predicate on the list. -/
theorem any_congr {α : Type} (p q : α → Bool) :
    ∀ l : List α, (∀ x ∈ l, p x = q x) → l.any p = l.any q := by
  intro l
  induction l with
  | nil => intro _; rfl
  | cons a l ih =>
    intro h
    simp only [List.any_cons]
    rw [h a (List.mem_cons_self a l), ih (fun x hx => h x (List.mem_cons_of_mem a hx))]

/-- `foldl` only depends on the values of the step function on the list. -/
theorem foldl_congr_fun {α β : Type} (f g : β → α → β) :
    ∀ (l : List α) (b : β), (∀ x ∈ l, ∀ acc, f acc x = g acc x) →
      l.foldl f b = l.foldl g b := by
  intro l
  induction l with
  | nil => intro _ _; rfl
  | cons a l ih =>
    intro b h
    rw [List.foldl_cons, List.foldl_cons, h a (List.mem_cons_self a l)]
    exact ih _ (fun x hx acc => h x (List.mem_cons_of_mem a hx) acc)

/-- A found header row is in the scan window and the ticket column is G or
F. -/
theorem findHeader_some_facts (ws : XSheet) (hr ltcol : Nat)
    (h : findHeader ws = some (hr, ltcol)) :
    1 ≤ hr ∧ (ltcol = 7 ∨ ltcol = 6) := by
  unfold findHeader at h
  obtain ⟨r, hrmem, hfr⟩ := List.exists_of_findSome?_eq_some h
  rw [List.mem_range'] at hrmem
  obtain ⟨i, hi, rfl⟩ := hrmem
  by_cases h7 : headerCellHit (ws.cell (1 + 1 * i) 7)
  · rw [if_pos h7] at hfr
    cases hfr
    exact ⟨by omega, Or.inl rfl⟩
  · rw [if_neg h7] at hfr
    by_cases h6 : headerCellHit (ws.cell (1 + 1 * i) 6)
    · rw [if_pos h6] at hfr
      cases hfr
      exact ⟨by omega, Or.inr rfl⟩
    · rw [if_neg h6] at hfr
      cases hfr

/-- The date-header row sits at or above the data header row. -/
theorem dateHeaderRow_bounds (ws : XSheet) (hr : Nat) (h1 : 1 ≤ hr) :
    1 ≤ dateHeaderRow ws hr ∧ dateHeaderRow ws hr ≤ hr := by
  unfold dateHeaderRow
  cases hfc : findCapacityRow ws hr with
  | none => simp [h1]
  | some r =>
    simp only [Option.getD_some]
    have hmem := List.mem_of_find?_eq_some hfc
    rw [List.mem_range'] at hmem
    obtain ⟨i, hi, rfl⟩ := hmem
    omega

/-- Unfolding of the reconciler when the header is found. -/
theorem read_existing_eq_of_header (ws : XSheet) (start : PyDate) (hr ltcol : Nat)
    (h : findHeader ws = some (hr, ltcol)) :
    read_existing_capacity_data ws start
      = ((readDataRows ws hr ltcol
            (wcmItems (weekColEntries ws (dateHeaderRow ws hr) (ltcol + 2) start))).1,
         (readDataRows ws hr ltcol
            (wcmItems (weekColEntries ws (dateHeaderRow ws hr) (ltcol + 2) start))).2,
         maxWeekIdx (weekColEntries ws (dateHeaderRow ws hr) (ltcol + 2) start) + 1) := by
  unfold read_existing_capacity_data
  rw [h]

/-- C9: the reconciler degrades gracefully — with no "Linear Ticket" header
in the scanned leading rows it returns empty capacity and assignee maps (and
week count 0) instead of raising; and an unparseable week-header date cell
only skips that one column: blanking it changes nothing in the result, and
no week index is ever mapped to it, while all other columns are parsed and
read as before. -/
theorem read_existing_graceful :
    (∀ (ws : XSheet) (start : PyDate), findHeader ws = none →
      read_existing_capacity_data ws start = ([], [], 0)) ∧
    (∀ (ws : XSheet) (start : PyDate) (hr ltcol c : Nat) (s : String),
      findHeader ws = some (hr, ltcol) → 8 ≤ c →
      ws.cell (dateHeaderRow ws hr) c = CellVal.str s →
      parseMD s start.year = none → parseMD s (start.year + 1) = none →
      pyStrip s ≠ "Capacity" →
      read_existing_capacity_data (ws.setCell (dateHeaderRow ws hr) c CellVal.empty) start
          = read_existing_capacity_data ws start ∧
      ∀ wi col,
        (wi, col) ∈ wcmItems (weekColEntries ws (dateHeaderRow ws hr) (ltcol + 2) start) →
        col ≠ c) := by
  constructor
  · intro ws start h
    unfold read_existing_capacity_data
    rw [h]
  · intro ws start hr ltcol c s hfind hc8 hcell hp1 hp2 hcap
    obtain ⟨hhr1, hlt67⟩ := findHeader_some_facts ws hr ltcol hfind
    obtain ⟨hdhr1, hdhrle⟩ := dateHeaderRow_bounds ws hr hhr1
    obtain ⟨R, hRdef⟩ : ∃ R, dateHeaderRow ws hr = R := ⟨_, rfl⟩
    rw [hRdef] at hcell hdhr1 hdhrle ⊢
    have hcne : ws.cell R c ≠ CellVal.empty := by
      rw [hcell]
      intro hx
      cases hx
    have hset : (ws.setCell R c CellVal.empty).cell R c = CellVal.empty :=
      cell_setCell_self ws R c CellVal.empty hcne
    have hfind2 : findHeader (ws.setCell R c CellVal.empty) = findHeader ws := by
      unfold findHeader
      rw [maxRow_setCell]
      apply findSome?_congr
      intro r hrmem
      rw [cell_setCell_col_ne ws R c r 7 CellVal.empty (by omega) (by omega) (by omega),
        cell_setCell_col_ne ws R c r 6 CellVal.empty (by omega) (by omega) (by omega)]
    have hcaprow : findCapacityRow (ws.setCell R c CellVal.empty) hr
        = findCapacityRow ws hr := by
      unfold findCapacityRow
      apply find?_congr
      intro r hrmem
      rw [List.mem_range'] at hrmem
      obtain ⟨i, hi, rfl⟩ := hrmem
      apply any_congr
      intro col hcol
      rw [List.mem_range'] at hcol
      obtain ⟨j, hj, rfl⟩ := hcol
      by_cases hrc : 1 + 1 * i = R ∧ 6 + 1 * j = c
      · rw [hrc.1, hrc.2, hset, hcell]
        simp [isCapacityCell, hcap]
      · by_cases hr2 : 1 + 1 * i = R
        · have hcne2 : 6 + 1 * j ≠ c := fun hcc => hrc ⟨hr2, hcc⟩
          rw [cell_setCell_col_ne ws R c _ _ CellVal.empty (by omega) (by omega) hcne2]
        · rw [cell_setCell_row_ne ws R c _ _ CellVal.empty hdhr1 (by omega) hr2]
    have hdhr2 : dateHeaderRow (ws.setCell R c CellVal.empty) hr = R := by
      unfold dateHeaderRow
      rw [hcaprow]
      exact hRdef
    have hentries : weekColEntries (ws.setCell R c CellVal.empty) R (ltcol + 2) start
        = weekColEntries ws R (ltcol + 2) start := by
      unfold weekColEntries
      rw [maxCol_setCell]
      apply List.filterMap_congr
      intro col hcol
      rw [List.mem_range'] at hcol
      obtain ⟨j, hj, rfl⟩ := hcol
      by_cases hcc : ltcol + 2 + 1 * j = c
      · rw [hcc, hset, hcell]
        simp [parseHeaderDate, hp1]
      · rw [cell_setCell_col_ne ws R c _ _ CellVal.empty (by omega) (by omega) hcc]
    have hdata : readDataRows (ws.setCell R c CellVal.empty) hr ltcol
        (wcmItems (weekColEntries ws R (ltcol + 2) start))
        = readDataRows ws hr ltcol (wcmItems (weekColEntries ws R (ltcol + 2) start)) := by
      unfold readDataRows
      rw [maxRow_setCell]
      apply foldl_congr_fun
      intro r hrmem acc
      rw [List.mem_range'] at hrmem
      obtain ⟨i, hi, rfl⟩ := hrmem
      have hrne : hr + 1 + 1 * i ≠ R := by omega
      have hcells : ∀ cc, (ws.setCell R c CellVal.empty).cell (hr + 1 + 1 * i) cc
          = ws.cell (hr + 1 + 1 * i) cc := fun cc =>
        cell_setCell_row_ne ws R c _ cc CellVal.empty hdhr1 (by omega) hrne
      simp only [rowCapEntries, hcells]
    constructor
    · rw [read_existing_eq_of_header _ start hr ltcol (hfind2.trans hfind),
        read_existing_eq_of_header ws start hr ltcol hfind, hdhr2, hRdef, hentries, hdata]
    · intro wi col hmem hcc
      subst hcc
      unfold wcmItems at hmem
      rw [List.mem_filterMap] at hmem
      obtain ⟨wi2, hwi2, hmap⟩ := hmem
      cases hlast : lastColFor (weekColEntries ws R (ltcol + 2) start) wi2 with
      | none => rw [hlast] at hmap; cases hmap
      | some col2 =>
        rw [hlast] at hmap
        cases hmap
        unfold lastColFor at hlast
        rcases Option.map_eq_some'.mp hlast with ⟨p, hgl, hp1x⟩
        rcases List.getLast?_eq_some_iff.mp hgl with ⟨ys, hys⟩
        have hfmem : p ∈ ys ++ [p] := List.mem_append_right ys (List.mem_singleton_self p)
        rw [← hys] at hfmem
        have hpmem2 := List.mem_of_mem_filter hfmem
        unfold weekColEntries at hpmem2
        rw [List.mem_filterMap] at hpmem2
        obtain ⟨col3, hcol3, hfcol3⟩ := hpmem2
        cases hpd : parseHeaderDate (ws.cell R col3) start with
        | none => rw [hpd] at hfcol3; cases hfcol3
        | some t =>
          rw [hpd] at hfcol3
          have hfcol4 : (if 0 ≤ Int.fdiv (t - start.day) 7
              then some (col3, Int.fdiv (t - start.day) 7) else none) = some p := hfcol3
          by_cases hw0 : 0 ≤ Int.fdiv (t - start.day) 7
          · rw [if_pos hw0] at hfcol4
            cases hfcol4
            have hx : ws.cell R col3 = CellVal.str s := by
              have hc3 : col3 = col := hp1x
              rw [hc3]
              exact hcell
            rw [hx] at hpd
            simp [parseHeaderDate, hp1] at hpd
          · rw [if_neg hw0] at hfcol4
            cases hfcol4

/-- C9 witness: the graceful-degradation theorem applied to a sheet with no
header and to wsW, whose week-header column 9 is unparseable. -/
theorem read_existing_graceful_witness :
    read_existing_capacity_data ⟨[[CellVal.str "no header here"]]⟩ startW = ([], [], 0) ∧
    read_existing_capacity_data (wsW.setCell (dateHeaderRow wsW 1) 9 CellVal.empty) startW
      = read_existing_capacity_data wsW startW := by
  constructor
  · exact read_existing_graceful.1 _ startW (by decide)
  · exact (read_existing_graceful.2 wsW startW 1 7 9 "garbage" (by decide) (by decide)
      (by decide) (by decide) (by decide) (by decide)).1

end LinearToExcel
